import Mathlib

/-!
Shallow embedding of the derived-analytics core of the gold-price dashboard.

JavaScript numbers that may be non-finite (NaN, ±Infinity) are modelled as
`Option ℚ` (`none` = non-finite); `Number.isFinite x` is `x.isSome`.
ISO date strings are modelled by their `Date.getTime()` timestamps (`ℤ` in
milliseconds): the source only compares dates (`===`, subtraction inside the
sort comparator and `Math.round((sell - buy) / MS_PER_DAY)`), and every such
operation factors through the timestamp.
-/

/-- A JavaScript number: `none` models a non-finite value (NaN or ±Infinity). -/
abbrev JsNum := Option ℚ

/-- One processed entry `{ date, buy, sell }` as built by the fetch handlers.
The price fields keep the `JsNum` type so that the engine-level finiteness
guards of the source can be stated; entries produced by normalization always
carry `some` values. -/
structure JEntry where
  date : Int
  buy : JsNum
  sell : JsNum
deriving DecidableEq

instance : Inhabited JEntry := ⟨⟨0, none, none⟩⟩

/-- `MS_PER_DAY = 1000 * 60 * 60 * 24` from CumulativeReturnChart.js. -/
def MS_PER_DAY : ℤ := 1000 * 60 * 60 * 24

/-- Insert an entry into a list that is already sorted by date, before the
first strictly later entry.  Together with `sortByDate` this is the unique
stable sort for the comparator `(a, b) => new Date(a.date) - new Date(b.date)`
used by `[...entries].sort(...)` in CumulativeReturnChart.js (JavaScript's
`Array.prototype.sort` is stable). -/
def insertEntry (e : JEntry) : List JEntry → List JEntry
  | [] => [e]
  | f :: rest => if e.date ≤ f.date then e :: f :: rest else f :: insertEntry e rest

/-- Stable sort by ascending date, modelling
`[...entries].sort((a, b) => new Date(a.date) - new Date(b.date))`. -/
def sortByDate : List JEntry → List JEntry
  | [] => []
  | e :: rest => insertEntry e (sortByDate rest)

/-- The `processedEntries` map/filter step of `fetchData` in
CumulativeReturnChart.js: walk the parallel arrays index-aligned, keep an
entry only when both `Number(buy_prices[idx])` and `Number(sell_prices[idx])`
are finite.  A missing index yields `NaN` and is filtered, so exhausting
either price array ends the surviving entries. -/
def processedEntries : List Int → List JsNum → List JsNum → List JEntry
  | d :: ds, b :: bs, s :: ss =>
      match b, s with
      | some bv, some sv => ⟨d, some bv, some sv⟩ :: processedEntries ds bs ss
      | _, _ => processedEntries ds bs ss
  | _, _, _ => []

/-- Error message set by `fetchData` when no entry survives normalization. -/
def noDataMessage : String := "No data available for the selected gold type."

/-- The normalization pipeline of `fetchData` in CumulativeReturnChart.js:
map/filter the parallel arrays, report `noDataMessage` when nothing survives,
otherwise sort the surviving entries ascending by date. -/
def crcNormalize (ds : List Int) (bs ss : List JsNum) :
    Except String (List JEntry) :=
  match processedEntries ds bs ss with
  | [] => .error noDataMessage
  | e :: rest => .ok (sortByDate (e :: rest))

/-- Tagged errors set by the return-computation effect of
CumulativeReturnChart.js. -/
inductive RErr
  | rangeOrder
  | emptyWindow
  | zeroCost
deriving DecidableEq

/-- The UI message attached to each tagged error by `setError`. -/
def RErr.message : RErr → String
  | .rangeOrder => "Sell date must be the same as or after the buy date."
  | .emptyWindow => "No data in the selected window."
  | .zeroCost => "Sell price unavailable for the selected start date."

/-- The chart payload built on success: the dates of the window slice together
with the percentage curve (`data`) and the absolute-currency curve
(`absoluteData`), both produced in the same pass. -/
structure RChart where
  dates : List Int
  returns : List JsNum
  absoluteReturns : List JsNum
deriving DecidableEq

/-- The `stats` record set on success:
`{latestReturn, entryCost, exitProceeds, absoluteChange, holdingDays}`. -/
structure RStats where
  latestReturn : JsNum
  entryCost : ℚ
  exitProceeds : JsNum
  absoluteChange : JsNum
  holdingDays : ℤ
deriving DecidableEq

/-- Outcome of one run of the return-computation effect.  `noChange` models
the early `return` paths that leave the previous `chartData`/`stats`/`error`
state in place. -/
inductive ReturnOutcome
  | noChange
  | failure (e : RErr)
  | success (chart : RChart) (stats : RStats)
deriving DecidableEq

/-- `true` when the run settled on a result or a tagged error, `false` when it
silently left prior outputs in place. -/
def ReturnOutcome.isSettled : ReturnOutcome → Bool
  | .noChange => false
  | _ => true

/-- The chart produced by a run, if any. -/
def ReturnOutcome.chartOf : ReturnOutcome → Option RChart
  | .success c _ => some c
  | _ => none

/-- The stats produced by a run, if any. -/
def ReturnOutcome.statsOf : ReturnOutcome → Option RStats
  | .success _ s => some s
  | _ => none

/-- The body of the `useEffect` in CumulativeReturnChart.js that computes the
return curve and stats from `entries`, `buyDate` and `sellDate` (an empty date
string is `none`).  Mirrors the source line by line: early `return` on empty
inputs, re-sort by date, `findIndex` on both dates, range-order check,
`slice(buyIndex, sellIndex + 1)`, empty-window check, entry cost finiteness
and positivity guard, then the percentage and absolute curves and the stats
record computed in one pass. -/
def computeReturnEffect (entries : List JEntry) (buyDate? sellDate? : Option Int) :
    ReturnOutcome :=
  match buyDate?, sellDate? with
  | some buyDate, some sellDate =>
    if entries.isEmpty then .noChange
    else
      match (sortByDate entries).findIdx? (fun e => e.date == buyDate),
            (sortByDate entries).findIdx? (fun e => e.date == sellDate) with
      | some buyIndex, some sellIndex =>
          if sellIndex < buyIndex then .failure .rangeOrder
          else
            match ((sortByDate entries).drop buyIndex).take (sellIndex + 1 - buyIndex) with
            | [] => .failure .emptyWindow
            | first :: rest =>
              match first.sell with
              | none => .failure .zeroCost
              | some entryCost =>
                if entryCost ≤ 0 then .failure .zeroCost
                else
                  .success
                    ⟨(first :: rest).map (fun e => e.date),
                     (first :: rest).map
                       (fun e => e.buy.map (fun b => (b - entryCost) / entryCost * 100)),
                     (first :: rest).map (fun e => e.buy.map (fun b => b - entryCost))⟩
                    ⟨((first :: rest).map
                        (fun e => e.buy.map (fun b => (b - entryCost) / entryCost * 100))).getLastD
                        none,
                     entryCost,
                     (rest.getLastD first).buy,
                     ((rest.getLastD first).buy).map (fun b => b - entryCost),
                     max 0 (round (((sellDate - buyDate : ℤ) : ℚ) / (MS_PER_DAY : ℚ)))⟩
      | _, _ => .noChange
  | _, _ => .noChange

/-- The closed window slice `[entryDate, exitDate]`, i.e.
`sorted.slice(buyIndex, sellIndex + 1)`. -/
def windowSlice (l : List JEntry) (i j : ℕ) : List JEntry :=
  (l.drop i).take (j + 1 - i)

/-- `calculateMovingAverage` from MovingAverageChart: for each index, average
the slice `values.slice(Math.max(0, index - window + 1), index + 1)`. -/
def calculateMovingAverage (values : List ℚ) (window : ℕ) : List ℚ :=
  (List.range values.length).map (fun (index : ℕ) =>
    let start : ℕ := ((index : ℤ) - (window : ℤ) + 1).toNat
    let slice := (values.drop start).take (index + 1 - start)
    (slice.foldl (· + ·) 0) / (slice.length : ℚ))

/-- The day-over-day difference loop of DailyChangeBarChart:
`changes.push(entries[idx].buy - entries[idx - 1].buy)` for `idx = 1 …`. -/
def dailyDeltas : List ℚ → List ℚ
  | a :: b :: rest => (b - a) :: dailyDeltas (b :: rest)
  | _ => []

/-- The map/filter step of DailyChangeBarChart over the `dates`/`buy_prices`
arrays: keep `(date, buy)` when `Number(buy_prices[idx])` is finite. -/
def dcEntries : List Int → List JsNum → List (Int × ℚ)
  | d :: ds, b :: bs =>
      match b with
      | some bv => (d, bv) :: dcEntries ds bs
      | none => dcEntries ds bs
  | _, _ => []

/-- The `stats` record of DailyChangeBarChart.  `latestChange` is a `JsNum`
because the source computes `changes[changes.length - 1] || null`. -/
structure DStats where
  latestChange : JsNum
  maxGain : ℚ
  maxDrop : ℚ
  averageChange : ℚ
deriving DecidableEq

/-- Outcome of one run of `fetchChangeData` in DailyChangeBarChart: either the
no-data state (`chartData` and `stats` both cleared) or the delta sequence
with its stats. -/
inductive DeltaOutcome
  | noData
  | success (changes : List ℚ) (stats : DStats)
deriving DecidableEq

/-- The computation of `fetchChangeData` in DailyChangeBarChart: bail out when
fewer than 2 dates arrive or fewer than 2 entries survive the finiteness
filter, otherwise build the delta sequence and its summary.  The `[]` branch
of the inner match is unreachable (at least 2 entries give at least 1 delta).
`latestChange` models `changes[changes.length - 1] || null`: a last delta of
`0` is falsy in JavaScript, so it collapses to `null`. -/
def dailyChangeOutcome (ds : List Int) (bs : List JsNum) : DeltaOutcome :=
  if ds.length < 2 then .noData
  else
    let entries := dcEntries ds bs
    if entries.length < 2 then .noData
    else
      match dailyDeltas (entries.map (fun e => e.2)) with
      | [] => .noData
      | c :: cs =>
          let latestChange : JsNum :=
            if cs.getLastD c = 0 then none else some (cs.getLastD c)
          .success (c :: cs)
            ⟨latestChange,
             cs.foldl max c,
             cs.foldl min c,
             ((c :: cs).foldl (· + ·) 0) / ((c :: cs).length : ℚ)⟩

/-- A normalized price point with finite prices, as in the spec's data model. -/
structure PricePoint where
  date : Int
  buy : ℚ
  sell : ℚ
deriving DecidableEq

/-- The `combined` map/filter step of SpreadTrendChart: keep
`(date, sell - buy)` when both prices are finite. -/
def spreadCombined : List Int → List JsNum → List JsNum → List (Int × ℚ)
  | d :: ds, b :: bs, s :: ss =>
      match b, s with
      | some bv, some sv => (d, sv - bv) :: spreadCombined ds bs ss
      | _, _ => spreadCombined ds bs ss
  | _, _, _ => []

/-- The `stats` record of SpreadTrendChart. -/
structure SpreadStats where
  currentSpread : JsNum
  maxSpread : ℚ
  minSpread : ℚ
  averageSpread : ℚ
  latestDate : Int
deriving DecidableEq

/-- Outcome of one run of `fetchSpreadData` in SpreadTrendChart. -/
inductive SpreadOutcome
  | noData
  | success (spreads : List ℚ) (stats : SpreadStats)
deriving DecidableEq

/-- The computation of `fetchSpreadData` in SpreadTrendChart: bail out on an
empty date array or when nothing survives the finiteness filter, otherwise
report the spread series and its summary (`current` is the last spread,
`max`/`min`/`mean` over the same series, `latestDate` the last surviving
date). -/
def spreadOutcome (ds : List Int) (bs ss : List JsNum) : SpreadOutcome :=
  if ds.isEmpty then .noData
  else
    match spreadCombined ds bs ss with
    | [] => .noData
    | c :: cs =>
        .success ((c :: cs).map (fun e => e.2))
          ⟨some ((cs.map (fun e => e.2)).getLastD c.2),
           (cs.map (fun e => e.2)).foldl max c.2,
           (cs.map (fun e => e.2)).foldl min c.2,
           (((c :: cs).map (fun e => e.2)).foldl (· + ·) 0) / (((c :: cs).length : ℕ) : ℚ),
           (cs.getLastD c).1⟩

/-! ### Helper lemmas -/

lemma insertEntry_cons_of_le {e f : JEntry} {l : List JEntry} (h : e.date ≤ f.date) :
    insertEntry e (f :: l) = e :: f :: l := by
  rw [insertEntry, if_pos h]

lemma sortByDate_eq_self : ∀ {l : List JEntry},
    l.Pairwise (fun a b => a.date ≤ b.date) → sortByDate l = l
  | [], _ => rfl
  | e :: rest, h => by
    rw [List.pairwise_cons] at h
    rw [sortByDate, sortByDate_eq_self h.2]
    cases rest with
    | nil => rfl
    | cons f rs => exact insertEntry_cons_of_le (h.1 f (List.mem_cons_self f rs))

lemma mem_insertEntry {a e : JEntry} {l : List JEntry} :
    a ∈ insertEntry e l ↔ a = e ∨ a ∈ l := by
  induction l with
  | nil => simp [insertEntry]
  | cons f rs ih =>
      by_cases h : e.date ≤ f.date
      · simp [insertEntry, h]
      · simp [insertEntry, h, ih]
        tauto

lemma mem_sortByDate {a : JEntry} {l : List JEntry} :
    a ∈ sortByDate l ↔ a ∈ l := by
  induction l with
  | nil => simp [sortByDate]
  | cons e rs ih => simp [sortByDate, mem_insertEntry, ih]

lemma windowSlice_eq_cons {l : List JEntry} {i j : ℕ} (hi : i < l.length) (hij : i ≤ j) :
    windowSlice l i j = l[i] :: ((l.drop (i + 1)).take (j - i)) := by
  rw [windowSlice, List.drop_eq_getElem_cons hi, show j + 1 - i = (j - i) + 1 by omega,
    List.take_succ_cons]

lemma windowSlice_getLast? {l : List JEntry} {i j : ℕ} (hij : i ≤ j) (hj : j < l.length) :
    (windowSlice l i j).getLast? = some (l[j]) := by
  have hlen : ((l.drop i).take (j + 1 - i)).length = j + 1 - i := by
    simp only [List.length_take, List.length_drop]
    omega
  rw [windowSlice, List.getLast?_eq_getElem?, hlen, show j + 1 - i - 1 = j - i by omega,
    List.getElem?_take_of_lt (by omega), List.getElem?_drop,
    show i + (j - i) = j by omega, List.getElem?_eq_getElem hj]

lemma computeReturnEffect_success {entries : List JEntry} {bd sd : Int} {i j : ℕ} {c : ℚ}
    (hsorted : entries.Pairwise (fun a b => a.date ≤ b.date))
    (hbi : entries.findIdx? (fun e => e.date == bd) = some i)
    (hsi : entries.findIdx? (fun e => e.date == sd) = some j)
    (hij : i ≤ j)
    (hc : (entries.getD i default).sell = some c)
    (hcpos : 0 < c) :
    computeReturnEffect entries (some bd) (some sd) =
      .success
        ⟨(windowSlice entries i j).map (fun e => e.date),
         (windowSlice entries i j).map (fun e => e.buy.map (fun b => (b - c) / c * 100)),
         (windowSlice entries i j).map (fun e => e.buy.map (fun b => b - c))⟩
        ⟨((entries.getD j default).buy).map (fun b => (b - c) / c * 100),
         c,
         (entries.getD j default).buy,
         ((entries.getD j default).buy).map (fun b => b - c),
         max 0 (round (((sd - bd : ℤ) : ℚ) / (MS_PER_DAY : ℚ)))⟩ := by
  have hi : i < entries.length := (List.findIdx?_eq_some_iff_getElem.mp hbi).1
  have hj : j < entries.length := (List.findIdx?_eq_some_iff_getElem.mp hsi).1
  have hne : entries.isEmpty = false :=
    List.isEmpty_eq_false.mpr (List.ne_nil_of_length_pos (Nat.lt_of_le_of_lt (Nat.zero_le i) hi))
  have hsort : sortByDate entries = entries := sortByDate_eq_self hsorted
  have hgetDi : entries.getD i default = entries[i] := by
    rw [List.getD_eq_getElem?_getD, List.getElem?_eq_getElem hi, Option.getD_some]
  have hgetDj : entries.getD j default = entries[j] := by
    rw [List.getD_eq_getElem?_getD, List.getElem?_eq_getElem hj, Option.getD_some]
  have hw : (entries.drop i).take (j + 1 - i) =
      (entries[i]) :: ((entries.drop (i + 1)).take (j - i)) :=
    windowSlice_eq_cons hi hij
  have hlast : ((entries.drop (i + 1)).take (j - i)).getLastD (entries[i]) = entries[j] := by
    have h1 : (windowSlice entries i j).getLast? = some (entries[j]) :=
      windowSlice_getLast? hij hj
    rw [windowSlice_eq_cons hi hij, List.getLast?_cons] at h1
    rw [List.getLastD_eq_getLast?]
    exact Option.some.inj h1
  rw [hgetDi] at hc
  rw [hgetDj]
  have hwin : windowSlice entries i j =
      (entries[i]) :: ((entries.drop (i + 1)).take (j - i)) :=
    windowSlice_eq_cons hi hij
  have hmaplast : ∀ (f : JEntry → JsNum),
      (((entries[i]) :: ((entries.drop (i + 1)).take (j - i))).map f).getLastD none =
        f (entries[j]) := by
    intro f
    rw [List.getLastD_eq_getLast?, List.getLast?_map, ← hwin,
      windowSlice_getLast? hij hj, Option.map_some', Option.getD_some]
  simp only [computeReturnEffect, hsort, hbi, hsi, hne, Bool.false_eq_true, if_false, hw,
    Nat.not_lt.mpr hij, hc, if_neg (not_le.mpr hcpos), hwin, hlast,
    hmaplast (fun e => e.buy.map (fun b => (b - c) / c * 100))]

/-- The three-point scenario series of the spec:
2025-01-01 `{buy 100, sell 110}`, 2025-01-02 `{buy 105, sell 115}`,
2025-01-03 `{buy 120, sell 130}` (dates as millisecond offsets one day apart). -/
def scenarioSeries : List JEntry :=
  [⟨0, some 100, some 110⟩, ⟨86400000, some 105, some 115⟩, ⟨172800000, some 120, some 130⟩]

/-- C1: for a sorted series with both dates present at indices `i ≤ j`, a
positive entry cost `c` (the sell price of the first point of the closed slice
`[entryDate, exitDate]`) and `xb` the buy price of the last point of the
slice, the stats are: `entryCost = c`, `exitProceeds = xb`,
`absoluteChange = xb - c` and `latestReturn = (xb - c) / c * 100`. -/
theorem returnSummary_matches_slice {entries : List JEntry} {bd sd : Int} {i j : ℕ} {c xb : ℚ}
    (hsorted : entries.Pairwise (fun a b => a.date ≤ b.date))
    (hbi : entries.findIdx? (fun e => e.date == bd) = some i)
    (hsi : entries.findIdx? (fun e => e.date == sd) = some j)
    (hij : i ≤ j)
    (hc : (entries.getD i default).sell = some c)
    (hcpos : 0 < c)
    (hxb : (entries.getD j default).buy = some xb) :
    (windowSlice entries i j).head? = some (entries.getD i default)
    ∧ (windowSlice entries i j).getLast? = some (entries.getD j default)
    ∧ (computeReturnEffect entries (some bd) (some sd)).statsOf =
        some ⟨some ((xb - c) / c * 100), c, some xb, some (xb - c),
              max 0 (round (((sd - bd : ℤ) : ℚ) / (MS_PER_DAY : ℚ)))⟩ := by
  have hi : i < entries.length := (List.findIdx?_eq_some_iff_getElem.mp hbi).1
  have hj : j < entries.length := (List.findIdx?_eq_some_iff_getElem.mp hsi).1
  have hgetDi : entries.getD i default = entries[i] := by
    rw [List.getD_eq_getElem?_getD, List.getElem?_eq_getElem hi, Option.getD_some]
  have hgetDj : entries.getD j default = entries[j] := by
    rw [List.getD_eq_getElem?_getD, List.getElem?_eq_getElem hj, Option.getD_some]
  refine ⟨?_, ?_, ?_⟩
  · rw [windowSlice_eq_cons hi hij, hgetDi, List.head?_cons]
  · rw [windowSlice_getLast? hij hj, hgetDj]
  · rw [computeReturnEffect_success hsorted hbi hsi hij hc hcpos, hxb]
    rfl

/-- C1 witness: the spec scenario (entry 2025-01-01, exit 2025-01-03) yields
cost basis 110, exit proceeds 120, absolute change `120 - 110` and net return
`(120 - 110) / 110 * 100`. -/
theorem returnSummary_matches_slice_witness :
    (windowSlice scenarioSeries 0 2).head? = some (scenarioSeries.getD 0 default)
    ∧ (windowSlice scenarioSeries 0 2).getLast? = some (scenarioSeries.getD 2 default)
    ∧ (computeReturnEffect scenarioSeries (some 0) (some 172800000)).statsOf =
        some ⟨some ((120 - 110) / 110 * 100), 110, some 120, some (120 - 110),
              max 0 (round (((172800000 - 0 : ℤ) : ℚ) / (MS_PER_DAY : ℚ)))⟩ :=
  @returnSummary_matches_slice scenarioSeries 0 172800000 0 2 110 120
    (by decide) rfl rfl (by omega) rfl (by norm_num) rfl

/-- C2: each point of the sliced series contributes the curve value
`(p.buy - costBasis) / costBasis * 100`; in particular the day-0 value is
`(firstPoint.buy - firstPoint.sell) / firstPoint.sell * 100`, which is not
forced to zero when the entry point's buy differs from its sell. -/
theorem returnCurve_pointwise {entries : List JEntry} {bd sd : Int} {i j : ℕ} {c b0 : ℚ}
    (hsorted : entries.Pairwise (fun a b => a.date ≤ b.date))
    (hbi : entries.findIdx? (fun e => e.date == bd) = some i)
    (hsi : entries.findIdx? (fun e => e.date == sd) = some j)
    (hij : i ≤ j)
    (hc : (entries.getD i default).sell = some c)
    (hcpos : 0 < c)
    (hb0 : (entries.getD i default).buy = some b0) :
    (computeReturnEffect entries (some bd) (some sd)).chartOf =
      some ⟨(windowSlice entries i j).map (fun e => e.date),
            (windowSlice entries i j).map (fun e => e.buy.map (fun b => (b - c) / c * 100)),
            (windowSlice entries i j).map (fun e => e.buy.map (fun b => b - c))⟩
    ∧ ((windowSlice entries i j).map (fun e => e.buy.map (fun b => (b - c) / c * 100))).head? =
        some (some ((b0 - c) / c * 100))
    ∧ (b0 ≠ c → (b0 - c) / c * 100 ≠ 0) := by
  have hi : i < entries.length := (List.findIdx?_eq_some_iff_getElem.mp hbi).1
  have hgetDi : entries.getD i default = entries[i] := by
    rw [List.getD_eq_getElem?_getD, List.getElem?_eq_getElem hi, Option.getD_some]
  refine ⟨?_, ?_, ?_⟩
  · rw [computeReturnEffect_success hsorted hbi hsi hij hc hcpos]
    rfl
  · rw [windowSlice_eq_cons hi hij, List.map_cons, List.head?_cons, ← hgetDi, hb0]
    rfl
  · intro hne0
    have h1 : b0 - c ≠ 0 := sub_ne_zero.mpr hne0
    exact mul_ne_zero (div_ne_zero h1 (ne_of_gt hcpos)) (by norm_num)

/-- C2 witness: on the spec scenario the day-0 curve value is
`(100 - 110) / 110 * 100`, which is nonzero since buy 100 ≠ sell 110 at the
entry date. -/
theorem returnCurve_pointwise_witness :
    (computeReturnEffect scenarioSeries (some 0) (some 172800000)).chartOf =
      some ⟨(windowSlice scenarioSeries 0 2).map (fun e => e.date),
            (windowSlice scenarioSeries 0 2).map
              (fun e => e.buy.map (fun b => (b - 110) / 110 * 100)),
            (windowSlice scenarioSeries 0 2).map (fun e => e.buy.map (fun b => b - 110))⟩
    ∧ ((windowSlice scenarioSeries 0 2).map
        (fun e => e.buy.map (fun b => (b - 110) / 110 * 100))).head? =
        some (some ((100 - 110) / 110 * 100))
    ∧ ((100 : ℚ) ≠ 110 → (100 - 110 : ℚ) / 110 * 100 ≠ 0) :=
  @returnCurve_pointwise scenarioSeries 0 172800000 0 2 110 100
    (by decide) rfl rfl (by omega) rfl (by norm_num) rfl

/-- C3: when the exit date's index precedes the entry date's index, the effect
settles on the range-order error, produces no stats and no chart, and that
error is distinct from the empty-window and no-data messages. -/
theorem rangeOrder_error {entries : List JEntry} {bd sd : Int} {i j : ℕ}
    (hsorted : entries.Pairwise (fun a b => a.date ≤ b.date))
    (hbi : entries.findIdx? (fun e => e.date == bd) = some i)
    (hsi : entries.findIdx? (fun e => e.date == sd) = some j)
    (hji : j < i) :
    computeReturnEffect entries (some bd) (some sd) = .failure .rangeOrder
    ∧ (computeReturnEffect entries (some bd) (some sd)).statsOf = none
    ∧ (computeReturnEffect entries (some bd) (some sd)).chartOf = none
    ∧ RErr.rangeOrder.message ≠ RErr.emptyWindow.message
    ∧ RErr.rangeOrder.message ≠ noDataMessage := by
  have hi : i < entries.length := (List.findIdx?_eq_some_iff_getElem.mp hbi).1
  have hne : entries.isEmpty = false :=
    List.isEmpty_eq_false.mpr (List.ne_nil_of_length_pos (Nat.lt_of_le_of_lt (Nat.zero_le i) hi))
  have hsort : sortByDate entries = entries := sortByDate_eq_self hsorted
  have hmain : computeReturnEffect entries (some bd) (some sd) = .failure .rangeOrder := by
    simp only [computeReturnEffect, hsort, hbi, hsi, hne, Bool.false_eq_true, if_false,
      if_pos hji]
  refine ⟨hmain, by rw [hmain]; rfl, by rw [hmain]; rfl, by decide, by decide⟩

/-- C3 witness: entry 2025-01-03 with exit 2025-01-01 on the scenario series
yields the range-order error. -/
theorem rangeOrder_error_witness :
    computeReturnEffect scenarioSeries (some 172800000) (some 0) = .failure .rangeOrder
    ∧ (computeReturnEffect scenarioSeries (some 172800000) (some 0)).statsOf = none
    ∧ (computeReturnEffect scenarioSeries (some 172800000) (some 0)).chartOf = none
    ∧ RErr.rangeOrder.message ≠ RErr.emptyWindow.message
    ∧ RErr.rangeOrder.message ≠ noDataMessage :=
  @rangeOrder_error scenarioSeries 172800000 0 2 0 (by decide) rfl rfl (by omega)

/-- C4: a slice whose first point has a non-finite (`none`) or zero sell price
makes the effect settle on the "unavailable" error, with no curve and no
stats - the division by the cost basis is never performed. -/
theorem zeroCostBasis_error {entries : List JEntry} {bd sd : Int} {i j : ℕ}
    (hsorted : entries.Pairwise (fun a b => a.date ≤ b.date))
    (hbi : entries.findIdx? (fun e => e.date == bd) = some i)
    (hsi : entries.findIdx? (fun e => e.date == sd) = some j)
    (hij : i ≤ j)
    (hzc : (entries.getD i default).sell = none ∨ (entries.getD i default).sell = some 0) :
    computeReturnEffect entries (some bd) (some sd) = .failure .zeroCost
    ∧ (computeReturnEffect entries (some bd) (some sd)).chartOf = none
    ∧ (computeReturnEffect entries (some bd) (some sd)).statsOf = none := by
  have hi : i < entries.length := (List.findIdx?_eq_some_iff_getElem.mp hbi).1
  have hne : entries.isEmpty = false :=
    List.isEmpty_eq_false.mpr (List.ne_nil_of_length_pos (Nat.lt_of_le_of_lt (Nat.zero_le i) hi))
  have hsort : sortByDate entries = entries := sortByDate_eq_self hsorted
  have hgetDi : entries.getD i default = entries[i] := by
    rw [List.getD_eq_getElem?_getD, List.getElem?_eq_getElem hi, Option.getD_some]
  have hw : (entries.drop i).take (j + 1 - i) =
      (entries[i]) :: ((entries.drop (i + 1)).take (j - i)) :=
    windowSlice_eq_cons hi hij
  rw [hgetDi] at hzc
  have hmain : computeReturnEffect entries (some bd) (some sd) = .failure .zeroCost := by
    cases hzc with
    | inl h =>
        simp only [computeReturnEffect, hsort, hbi, hsi, hne, Bool.false_eq_true, if_false,
          Nat.not_lt.mpr hij, hw, h]
    | inr h =>
        simp only [computeReturnEffect, hsort, hbi, hsi, hne, Bool.false_eq_true, if_false,
          Nat.not_lt.mpr hij, hw, h, if_pos le_rfl]
  exact ⟨hmain, by rw [hmain]; rfl, by rw [hmain]; rfl⟩

/-- Series whose entry point has a zero sell price. -/
def zeroCostSeries : List JEntry :=
  [⟨0, some 100, some 0⟩, ⟨86400000, some 105, some 115⟩]

/-- C4 witness: a series whose first point sells at 0 yields the
"unavailable" error and neither curve nor stats. -/
theorem zeroCostBasis_error_witness :
    computeReturnEffect zeroCostSeries (some 0) (some 86400000) = .failure .zeroCost
    ∧ (computeReturnEffect zeroCostSeries (some 0) (some 86400000)).chartOf = none
    ∧ (computeReturnEffect zeroCostSeries (some 0) (some 86400000)).statsOf = none :=
  @zeroCostBasis_error zeroCostSeries 0 86400000 0 1 (by decide) rfl rfl (by omega)
    (Or.inr rfl)

/-- C10 amended: when both selected dates are members of the series' date set,
every run of the effect settles - it yields either a result or a tagged
error.  (When a date is not a member the effect returns early, leaving prior
outputs in place: see the counterexample.) -/
theorem effect_settles_on_member_dates {entries : List JEntry} {bd sd : Int}
    (hb : ∃ e ∈ entries, e.date = bd)
    (hs : ∃ e ∈ entries, e.date = sd) :
    (computeReturnEffect entries (some bd) (some sd)).isSettled = true := by
  obtain ⟨eb, hebm, hebd⟩ := hb
  obtain ⟨es, hesm, hesd⟩ := hs
  have hne : entries.isEmpty = false :=
    List.isEmpty_eq_false.mpr (List.ne_nil_of_length_pos (List.length_pos_of_mem hebm))
  have hbi : ((sortByDate entries).findIdx? (fun e => e.date == bd)).isSome := by
    rw [List.findIdx?_isSome]
    exact List.any_eq_true.mpr ⟨eb, mem_sortByDate.mpr hebm, by simp [hebd]⟩
  have hsi : ((sortByDate entries).findIdx? (fun e => e.date == sd)).isSome := by
    rw [List.findIdx?_isSome]
    exact List.any_eq_true.mpr ⟨es, mem_sortByDate.mpr hesm, by simp [hesd]⟩
  obtain ⟨i, hbi⟩ := Option.isSome_iff_exists.mp hbi
  obtain ⟨j, hsi⟩ := Option.isSome_iff_exists.mp hsi
  simp only [computeReturnEffect, hne, Bool.false_eq_true, if_false, hbi, hsi]
  split
  · rfl
  · split
    · rfl
    · split
      · rfl
      · split <;> rfl

/-- C10 amended witness: both scenario dates are members, so the run settles. -/
theorem effect_settles_on_member_dates_witness :
    (computeReturnEffect scenarioSeries (some 0) (some 172800000)).isSettled = true :=
  effect_settles_on_member_dates
    ⟨⟨0, some 100, some 110⟩, List.mem_cons_self _ _, rfl⟩
    ⟨⟨172800000, some 120, some 130⟩,
      List.mem_cons_of_mem _ (List.mem_cons_of_mem _ (List.mem_cons_self _ _)), rfl⟩

/-- C10 counterexample: with the non-empty scenario series and a buy date that
is not a member of the series' date set, the effect produces neither a result
nor a tagged error - it silently leaves prior outputs in place. -/
theorem effect_silent_on_missing_date :
    scenarioSeries.isEmpty = false
    ∧ (scenarioSeries.map (fun e => e.date)).contains 999 = false
    ∧ (computeReturnEffect scenarioSeries (some 999) (some 172800000)).isSettled = false := by
  refine ⟨rfl, by decide, ?_⟩
  simp [computeReturnEffect, scenarioSeries, sortByDate, insertEntry, ReturnOutcome.isSettled]

lemma foldl_add_eq (l : List ℚ) : ∀ a : ℚ, l.foldl (· + ·) a = a + l.sum := by
  induction l with
  | nil => intro a; simp
  | cons x xs ih => intro a; rw [List.foldl_cons, ih, List.sum_cons]; ring

lemma cMA_content {v : List ℚ} {w i : ℕ} (hi : i < v.length) :
    (calculateMovingAverage v w).getD i 0 =
      ((v.take (i + 1)).drop (i + 1 - w)).sum /
        ((((v.take (i + 1)).drop (i + 1 - w)).length : ℕ) : ℚ) := by
  have hs : ((i : ℤ) - (w : ℤ) + 1).toNat = i + 1 - w := by omega
  have hslice : (v.drop (i + 1 - w)).take (i + 1 - (i + 1 - w)) =
      (v.take (i + 1)).drop (i + 1 - w) := by
    rw [List.take_drop, show (i + 1 - w) + (i + 1 - (i + 1 - w)) = i + 1 by omega]
  rw [calculateMovingAverage, List.getD_eq_getElem?_getD, List.getElem?_map,
    List.getElem?_range hi, Option.map_some', Option.getD_some]
  simp only [hs, hslice, foldl_add_eq, zero_add]

/-- C5: the moving average keeps the input's length, each value is the mean of
the inclusive causal window `values[max(0, i - w + 1) .. i]` (so the first
output is the first input and no value looks past index `i`), and
`movingAverage([10,20,30,40], 2) = [10, 15, 25, 35]`. -/
theorem movingAverage_spec (v : List ℚ) (w : ℕ) (hw : 1 ≤ w) :
    (calculateMovingAverage v w).length = v.length
    ∧ (∀ i, i < v.length →
        (calculateMovingAverage v w).getD i 0 =
          ((v.take (i + 1)).drop (i + 1 - w)).sum /
            ((((v.take (i + 1)).drop (i + 1 - w)).length : ℕ) : ℚ))
    ∧ (∀ x xs, v = x :: xs → (calculateMovingAverage v w).head? = some x)
    ∧ (∀ i (v' : List ℚ), i < v.length → i < v'.length → v.take (i + 1) = v'.take (i + 1) →
        (calculateMovingAverage v w).getD i 0 = (calculateMovingAverage v' w).getD i 0)
    ∧ calculateMovingAverage [10, 20, 30, 40] 2 = [10, 15, 25, 35] := by
  refine ⟨by simp [calculateMovingAverage], fun i hi => cMA_content hi, ?_, ?_, ?_⟩
  · rintro x xs rfl
    have h0 : (0 : ℕ) < (x :: xs).length := by simp
    have h1 := cMA_content (v := x :: xs) (w := w) h0
    have hlen : (calculateMovingAverage (x :: xs) w).length = (x :: xs).length := by
      simp [calculateMovingAverage]
    rw [show (0 : ℕ) + 1 - w = 0 by omega] at h1
    simp only [List.drop_zero, List.take_cons, List.take_zero] at h1
    rw [List.head?_eq_getElem?, List.getElem?_eq_getElem (by omega), Option.some_inj]
    rw [show (calculateMovingAverage (x :: xs) w)[0] =
      (calculateMovingAverage (x :: xs) w).getD 0 0 from by
        rw [List.getD_eq_getElem?_getD, List.getElem?_eq_getElem (by omega), Option.getD_some]]
    rw [h1]
    norm_num
  · intro i v' hi hi' htake
    rw [cMA_content hi, cMA_content hi', htake]
  · norm_num [calculateMovingAverage, List.range_succ,
      show ((-1 : ℤ)).toNat = 0 from rfl, show ((0 : ℤ)).toNat = 0 from rfl,
      show ((1 : ℤ)).toNat = 1 from rfl, show ((2 : ℤ)).toNat = 2 from rfl]

/-- C5 witness: the scenario `movingAverage([10,20,30,40], 2)` instantiated. -/
theorem movingAverage_spec_witness :
    (calculateMovingAverage [10, 20, 30, 40] 2).length = ([10, 20, 30, 40] : List ℚ).length
    ∧ (calculateMovingAverage [10, 20, 30, 40] 2).getD 3 0 =
        ((([10, 20, 30, 40] : List ℚ).take 4).drop 2).sum /
          (((((([10, 20, 30, 40] : List ℚ).take 4).drop 2).length : ℕ)) : ℚ)
    ∧ (calculateMovingAverage [10, 20, 30, 40] 2).head? = some 10
    ∧ calculateMovingAverage [10, 20, 30, 40] 2 = [10, 15, 25, 35] := by
  obtain ⟨h1, h2, h3, h4, h5⟩ := movingAverage_spec [10, 20, 30, 40] 2 (by norm_num)
  exact ⟨h1, h2 3 (by norm_num), h3 10 [20, 30, 40] rfl, h5⟩

lemma dailyDeltas_length : ∀ v : List ℚ, (dailyDeltas v).length = v.length - 1
  | [] => rfl
  | [_] => rfl
  | a :: b :: rest => by
      rw [dailyDeltas, List.length_cons, dailyDeltas_length (b :: rest)]
      simp

lemma dailyDeltas_getD : ∀ (v : List ℚ) (k : ℕ), k + 1 < v.length →
    (dailyDeltas v).getD k 0 = v.getD (k + 1) 0 - v.getD k 0
  | a :: b :: rest, 0, _ => by simp [dailyDeltas]
  | a :: b :: rest, k + 1, h => by
      rw [dailyDeltas, List.getD_cons_succ, List.getD_cons_succ, List.getD_cons_succ]
      exact dailyDeltas_getD (b :: rest) k (by simpa using h)

/-- C6: the delta sequence has length `n - 1` with entry `k` equal to
`v[k+1] - v[k]`, and the engine reports the no-data outcome whenever fewer
than 2 entries survive. -/
theorem dailyDeltas_spec (v : List ℚ) :
    (dailyDeltas v).length = v.length - 1
    ∧ (∀ k, k + 1 < v.length → (dailyDeltas v).getD k 0 = v.getD (k + 1) 0 - v.getD k 0)
    ∧ (∀ (ds : List Int) (bs : List JsNum), (dcEntries ds bs).length < 2 →
        dailyChangeOutcome ds bs = .noData) := by
  refine ⟨dailyDeltas_length v, fun k hk => dailyDeltas_getD v k hk, ?_⟩
  intro ds bs h
  rw [dailyChangeOutcome]
  split
  · rfl
  · simp only [h, if_true]

/-- C6 witness: deltas of `[100, 103, 101]` and the single-point no-data case. -/
theorem dailyDeltas_spec_witness :
    (dailyDeltas [100, 103, 101]).length = ([100, 103, 101] : List ℚ).length - 1
    ∧ (dailyDeltas [100, 103, 101]).getD 0 0 =
        ([100, 103, 101] : List ℚ).getD 1 0 - ([100, 103, 101] : List ℚ).getD 0 0
    ∧ dailyChangeOutcome [0] [some 100] = .noData := by
  obtain ⟨h1, h2, h3⟩ := dailyDeltas_spec [100, 103, 101]
  exact ⟨h1, h2 0 (by norm_num), h3 [0] [some 100] (by norm_num [dcEntries])⟩

/-- C7: on two equal consecutive prices the delta sequence is `[0]`, yet the
engine's `latest` statistic is `none` (`null`, rendered "N/A") rather than
`some 0` - `changes[changes.length - 1] || null` collapses a legitimate zero
to `null` because `0` is falsy, while `max`, `min` and `mean` keep the value
`0` from the same delta sequence. -/
theorem latestChange_zero_collapses :
    dailyDeltas [100, 100] = [0]
    ∧ dailyChangeOutcome [0, 86400000] [some 100, some 100] =
        .success [0] ⟨none, 0, 0, 0⟩ := by
  constructor
  · norm_num [dailyDeltas]
  · norm_num [dailyChangeOutcome, dcEntries, dailyDeltas]

lemma getLastD_map {α β : Type} (f : α → β) (a : α) (l : List α) :
    (l.map f).getLastD (f a) = f (l.getLastD a) := by
  rw [List.getLastD_eq_getLast?, List.getLastD_eq_getLast?, List.getLast?_map]
  cases h : l.getLast? <;> simp [h]

lemma spreadCombined_eq_map (points : List PricePoint) :
    spreadCombined (points.map (fun p => p.date)) (points.map (fun p => some p.buy))
        (points.map (fun p => some p.sell)) =
      points.map (fun p => (p.date, p.sell - p.buy)) := by
  induction points with
  | nil => rfl
  | cons q qs ih =>
      rw [List.map_cons, List.map_cons, List.map_cons, spreadCombined, ih, List.map_cons]

/-- C8: for finite price points the spread series is index-aligned with the
input - entry `k` is `points[k].sell - points[k].buy`, so the lengths agree
and negative spreads pass through unclamped - and on non-empty input the
summary (`current` = last spread, `max`, `min`, `mean`, latest date) is
computed from that same series. -/
theorem spreadSeries_spec (points : List PricePoint) :
    spreadCombined (points.map (fun p => p.date)) (points.map (fun p => some p.buy))
        (points.map (fun p => some p.sell)) =
      points.map (fun p => (p.date, p.sell - p.buy))
    ∧ (∀ (q : PricePoint) (qs : List PricePoint), points = q :: qs →
        spreadOutcome (points.map (fun p => p.date)) (points.map (fun p => some p.buy))
            (points.map (fun p => some p.sell)) =
          .success (points.map (fun p => p.sell - p.buy))
            ⟨some ((qs.map (fun p => p.sell - p.buy)).getLastD (q.sell - q.buy)),
             (qs.map (fun p => p.sell - p.buy)).foldl max (q.sell - q.buy),
             (qs.map (fun p => p.sell - p.buy)).foldl min (q.sell - q.buy),
             ((points.map (fun p => p.sell - p.buy)).foldl (· + ·) 0) /
               ((points.length : ℕ) : ℚ),
             (qs.getLastD q).date⟩) := by
  refine ⟨spreadCombined_eq_map points, ?_⟩
  rintro q qs rfl
  have hcomb := spreadCombined_eq_map (q :: qs)
  simp only [List.map_cons] at hcomb
  rw [spreadOutcome]
  simp only [List.map_cons, List.isEmpty_cons, Bool.false_eq_true, if_false, hcomb]
  have hld : ((qs.map (fun p : PricePoint => (p.date, p.sell - p.buy))).getLastD
      (q.date, q.sell - q.buy)).1 = (qs.getLastD q).date := by
    rw [getLastD_map (fun p : PricePoint => (p.date, p.sell - p.buy)) q qs]
  simp only [SpreadOutcome.success.injEq, SpreadStats.mk.injEq, List.map_map,
    Function.comp_def, hld]
  norm_num

/-- Entry point of the inverted-market witness list. -/
def qInv : PricePoint := ⟨0, 100, 110⟩

/-- Tail of the inverted-market witness list: sell 100 < buy 105. -/
def qsInv : List PricePoint := [⟨86400000, 105, 100⟩]

/-- Two points whose second has an inverted market (sell < buy). -/
def invertedPoints : List PricePoint := qInv :: qsInv

/-- C8 witness: on an inverted market the spread series ends in a negative
number and the summary is built from the same series. -/
theorem spreadSeries_spec_witness :
    (spreadCombined (invertedPoints.map (fun p => p.date))
        (invertedPoints.map (fun p => some p.buy))
        (invertedPoints.map (fun p => some p.sell)) =
      invertedPoints.map (fun p => (p.date, p.sell - p.buy)))
    ∧ (spreadOutcome (invertedPoints.map (fun p => p.date))
        (invertedPoints.map (fun p => some p.buy))
        (invertedPoints.map (fun p => some p.sell)) =
      .success (invertedPoints.map (fun p => p.sell - p.buy))
        ⟨some ((qsInv.map (fun p => p.sell - p.buy)).getLastD (qInv.sell - qInv.buy)),
         (qsInv.map (fun p => p.sell - p.buy)).foldl max (qInv.sell - qInv.buy),
         (qsInv.map (fun p => p.sell - p.buy)).foldl min (qInv.sell - qInv.buy),
         ((invertedPoints.map (fun p => p.sell - p.buy)).foldl (· + ·) 0) /
           ((invertedPoints.length : ℕ) : ℚ),
         (qsInv.getLastD qInv).date⟩)
    ∧ (invertedPoints.map (fun p => p.sell - p.buy)).getLastD 0 < 0 :=
  ⟨(spreadSeries_spec invertedPoints).1,
   (spreadSeries_spec invertedPoints).2 qInv qsInv rfl,
   by norm_num [invertedPoints, qInv, qsInv]⟩

lemma processedEntries_date_mem : ∀ (ds : List Int) (bs ss : List JsNum) (e : JEntry),
    e ∈ processedEntries ds bs ss → e.date ∈ ds
  | [], _, _, e, he => absurd he (List.not_mem_nil e)
  | _ :: _, [], _, e, he => absurd he (List.not_mem_nil e)
  | _ :: _, _ :: _, [], e, he => absurd he (List.not_mem_nil e)
  | d :: ds, none :: bs, s :: ss, e, he =>
      List.mem_cons_of_mem _ (processedEntries_date_mem ds bs ss e he)
  | d :: ds, some bv :: bs, none :: ss, e, he =>
      List.mem_cons_of_mem _ (processedEntries_date_mem ds bs ss e he)
  | d :: ds, some bv :: bs, some sv :: ss, e, he => by
      rcases List.mem_cons.mp he with h | h
      · rw [h]
        exact List.mem_cons_self _ _
      · exact List.mem_cons_of_mem _ (processedEntries_date_mem ds bs ss e h)

lemma processedEntries_pairwise : ∀ (ds : List Int) (bs ss : List JsNum),
    ds.Pairwise (· ≤ ·) →
    (processedEntries ds bs ss).Pairwise (fun a b => a.date ≤ b.date)
  | [], _, _, _ => List.Pairwise.nil
  | _ :: _, [], _, _ => List.Pairwise.nil
  | _ :: _, _ :: _, [], _ => List.Pairwise.nil
  | d :: ds, none :: bs, s :: ss, h =>
      processedEntries_pairwise ds bs ss (List.pairwise_cons.mp h).2
  | d :: ds, some bv :: bs, none :: ss, h =>
      processedEntries_pairwise ds bs ss (List.pairwise_cons.mp h).2
  | d :: ds, some bv :: bs, some sv :: ss, h => by
      refine List.Pairwise.cons ?_
        (processedEntries_pairwise ds bs ss (List.pairwise_cons.mp h).2)
      intro e he
      exact (List.pairwise_cons.mp h).1 e.date (processedEntries_date_mem ds bs ss e he)

/-- C9 amended: the map/filter step emits surviving points in input index
order, and the normalizer then sorts them ascending by date; when the input
dates are already ascending (the API contract) the sort is the identity, so
the output preserves the index order of the input arrays. -/
theorem crcNormalize_order_of_sorted (ds : List Int) (bs ss : List JsNum)
    (hsorted : ds.Pairwise (· ≤ ·))
    (hne : processedEntries ds bs ss ≠ []) :
    crcNormalize ds bs ss = .ok (processedEntries ds bs ss) := by
  rcases hq : processedEntries ds bs ss with _ | ⟨e, rest⟩
  · exact absurd hq hne
  · simp only [crcNormalize, hq]
    rw [← hq, sortByDate_eq_self (processedEntries_pairwise ds bs ss hsorted)]

/-- C9 amended witness: an ascending two-point payload normalizes to its
surviving points in input order. -/
theorem crcNormalize_order_witness :
    crcNormalize [0, 86400000] [some 1, some 1] [some 2, some 2] =
      .ok (processedEntries [0, 86400000] [some 1, some 1] [some 2, some 2]) :=
  crcNormalize_order_of_sorted [0, 86400000] [some 1, some 1] [some 2, some 2]
    (by decide) (by simp [processedEntries])

/-- C9 counterexample: a payload whose dates arrive descending is re-sorted
by `fetchData`, so the normalizer's output does not preserve the index order
of the surviving points. -/
theorem crcNormalize_resorts :
    crcNormalize [86400000, 0] [some 1, some 1] [some 2, some 2] =
      .ok [⟨0, some 1, some 2⟩, ⟨86400000, some 1, some 2⟩]
    ∧ processedEntries [86400000, 0] [some 1, some 1] [some 2, some 2] =
      [⟨86400000, some 1, some 2⟩, ⟨0, some 1, some 2⟩]
    ∧ crcNormalize [86400000, 0] [some 1, some 1] [some 2, some 2] ≠
      .ok (processedEntries [86400000, 0] [some 1, some 1] [some 2, some 2]) := by
  refine ⟨?_, rfl, ?_⟩
  · norm_num [crcNormalize, processedEntries, sortByDate, insertEntry]
  · norm_num [crcNormalize, processedEntries, sortByDate, insertEntry]
